import Mathlib

/-!
Shallow embedding of `src/dpos.py` (dynamic portfolio optimization script).

Conventions of the embedding:
* numpy 1-D arrays are `List ℚ`; elementwise numpy operations become `List.map`
  / `List.zipWith`.
* `np.mean` over a possibly-empty slice is `npMean : List ℚ → Option ℚ`;
  `none` models the NaN that numpy returns on an empty slice.
* Python scalar division, which raises `ZeroDivisionError` on a zero
  denominator, is modelled with `Except` (for `calculate_sharpe_ratio`) or
  with `Option` (`qdiv`, where `none` stands for the non-finite inf/NaN that
  numpy float division by zero propagates).
* `np.sort` (ascending sort) is `List.insertionSort (· ≤ ·)`: the unique
  ascending rearrangement of the multiset of entries.
* The Monte-Carlo noise of `np.random.normal` is an explicit parameter
  `z : ℕ → ℕ → ℚ` giving the standard-normal draw of simulation `i`,
  period `t`; `np.random.normal(mu, sigma)` is `mu + sigma * z i t`.
-/

/-- `np.mean xs`: arithmetic mean; `none` models numpy's NaN on an empty
slice. -/
def npMean (xs : List ℚ) : Option ℚ :=
  if xs.isEmpty then none else some (xs.sum / (xs.length : ℚ))

/-- Embedding of `calculate_var_cvar` (src/dpos.py lines 23-31):

    sorted_returns = np.sort(returns)
    index = int((1 - confidence_level) * len(sorted_returns))
    var = sorted_returns[index]
    cvar = np.mean(sorted_returns[:index])
    return var, cvar

`Int.floor` models Python's `int()` on the nonnegative values arising for
`confidence_level ≤ 1` (truncation and floor agree there).  The result is
`none` when `index` falls outside `0 ≤ index < len` (a positive
out-of-range index raises IndexError; a negative index, which would invoke
Python's wrap-around indexing, only arises for `confidence_level > 1` and is
outside the modelled domain). -/
def calculate_var_cvar (returns : List ℚ) (confidence_level : ℚ) :
    Option (ℚ × Option ℚ) :=
  let sorted_returns := returns.insertionSort (· ≤ ·)
  let index : ℤ := ⌊(1 - confidence_level) * (returns.length : ℚ)⌋
  if h : 0 ≤ index ∧ index.toNat < sorted_returns.length then
    some (sorted_returns.get ⟨index.toNat, h.2⟩,
          npMean (sorted_returns.take index.toNat))
  else
    none

/-- Embedding of `calculate_sharpe_ratio` (src/dpos.py lines 34-38):
`(portfolio_return - risk_free_rate) / portfolio_stddev`, where Python's
scalar division raises `ZeroDivisionError` on a zero denominator
(modelled by `Except.error`).  The default `risk_free_rate` is `0.01`. -/
def calculate_sharpe_ratio (portfolio_return portfolio_stddev : ℚ)
    (risk_free_rate : ℚ) : Except String ℚ :=
  if portfolio_stddev = 0 then
    Except.error ("ZeroDivisionError")
  else
    Except.ok ((portfolio_return - risk_free_rate) / portfolio_stddev)

/-- Embedding of `rebalance_portfolio` (src/dpos.py lines 49-57):

    deviation = np.abs(weights - target_weights)
    if np.any(deviation > tolerance):
        return target_weights
    else:
        return weights

The default `tolerance` is `0.05`. -/
def rebalance_portfolio (weights target_weights : List ℚ)
    (tolerance : ℚ) : List ℚ :=
  let deviation := List.zipWith (fun w t => |w - t|) weights target_weights
  if deviation.any (fun d => decide (tolerance < d)) then
    target_weights
  else
    weights

/-- Embedding of `adjust_portfolio_with_costs` (src/dpos.py lines 106-111):

    new_weights = weights * (1 + market_signal)
    return new_weights * (1 - transaction_cost)

applied elementwise to the weights array; default `transaction_cost` 0.005. -/
def adjust_portfolio_with_costs (weights : List ℚ) (market_signal : ℚ)
    (transaction_cost : ℚ) : List ℚ :=
  let new_weights := weights.map (fun w => w * (1 + market_signal))
  new_weights.map (fun w => w * (1 - transaction_cost))

/-- Division of numpy float scalars: a zero denominator propagates a
non-finite value (inf or NaN, depending on the numerator), modelled as
`none`. -/
def qdiv (a b : ℚ) : Option ℚ :=
  if b = 0 then none else some (a / b)

/-- Sum of a list of possibly non-finite values: any `none` (NaN/inf)
poisons the sum, as in IEEE arithmetic. -/
def optSum : List (Option ℚ) → Option ℚ
  | [] => some 0
  | none :: _ => none
  | some x :: rest => Option.map (fun y => x + y) (optSum rest)

/-- Mean of a list of possibly non-finite values: NaN on an empty list, and
any non-finite entry poisons the mean. -/
def optMean (xs : List (Option ℚ)) : Option ℚ :=
  if xs.isEmpty then none
  else Option.map (fun s => s / (xs.length : ℚ)) (optSum xs)

/-- Embedding of `calculate_dcf` (src/dpos.py lines 8-20):

    n = len(cash_flows)
    simulated_cash_flows =
      np.random.normal(cash_flows, 0.05 * np.array(cash_flows),
                       (num_simulations, n))
    discounted_values =
      [np.sum([simulated_cash_flows[i][t] / (1 + discount_rate) ** (t + 1)
               for t in range(n)]) for i in range(num_simulations)]
    return np.mean(discounted_values)

`np.random.normal` raises `ValueError` when its scale argument
`0.05 * np.array(cash_flows)` has a negative entry — that is, when any cash
flow is negative (the source passes the signed flows, not their magnitude) —
before any discounting happens; this error path is `Except.error`.
Otherwise the Gaussian draws are the explicit parameter `z`, so that
`simulated_cash_flows[i][t] = cash_flows[t] + 0.05 * cash_flows[t] * z i t`.
Default `num_simulations` is 1000.  The payload `none` of a successful run
models a NaN mean. -/
def calculate_dcf (cash_flows : List ℚ) (discount_rate : ℚ)
    (z : ℕ → ℕ → ℚ) (num_simulations : ℕ) : Except String (Option ℚ) :=
  if cash_flows.any (fun x => decide (0.05 * x < 0)) then
    Except.error ("ValueError")
  else
    let n := cash_flows.length
    let simulated_cash_flows : ℕ → ℕ → ℚ := fun i t =>
      cash_flows.getD t 0 + 0.05 * cash_flows.getD t 0 * z i t
    let discounted_values : List (Option ℚ) :=
      (List.range num_simulations).map (fun i =>
        optSum ((List.range n).map (fun t =>
          qdiv (simulated_cash_flows i t) ((1 + discount_rate) ^ (t + 1)))))
    Except.ok (optMean discounted_values)

/-!
Model of the top-level script (src/dpos.py lines 78-134, together with the
imports and `def` statements of lines 1-75).  Only Python's name-binding
behaviour matters for the claims: executing a statement first requires every
name it reads to be bound in the global environment (otherwise a `NameError`
is raised and the run stops), then binds the names it assigns.  An `import`
or `def` statement binds its name without reading any global.
-/

/-- One top-level Python statement, abstracted to the global names it reads,
the global names it binds, and whether it writes to standard output. -/
structure PyStmt where
  uses : List String
  defines : List String
  output : Bool

/-- Run a list of top-level statements.  `env` is the set of bound global
names, `outs` counts the output statements executed so far.  A statement
whose first unbound read name is `m` stops the run with
`Except.error (m, outs)` (a `NameError` on `m` after `outs` outputs). -/
def runScript : List PyStmt → List String → Nat → Except (String × Nat) Nat
  | [], _, outs => Except.ok outs
  | st :: rest, env, outs =>
    match st.uses.find? (fun n => !env.contains n) with
    | some missing => Except.error (missing, outs)
    | none =>
        runScript rest (env ++ st.defines) (if st.output then outs + 1 else outs)

/-- The top-level statements of src/dpos.py, in source order.  `def` and
`import` statements only bind a name; an expression statement reads the
names that appear in it. -/
def dposScript : List PyStmt := [
  -- line 1: import numpy as np
  ⟨[], ["np"], false⟩,
  -- line 2: import pandas as pd
  ⟨[], ["pd"], false⟩,
  -- line 3: from scipy.optimize import minimize
  ⟨[], ["minimize"], false⟩,
  -- line 4: import matplotlib.pyplot as plt
  ⟨[], ["plt"], false⟩,
  -- lines 8-20: def calculate_dcf
  ⟨[], ["calculate_dcf"], false⟩,
  -- lines 23-31: def calculate_var_cvar
  ⟨[], ["calculate_var_cvar"], false⟩,
  -- lines 34-38: def calculate_sharpe_ratio
  ⟨[], ["calculate_sharpe_ratio"], false⟩,
  -- lines 41-46: def fama_french_three_factor_model
  ⟨[], ["fama_french_three_factor_model"], false⟩,
  -- lines 49-57: def rebalance_portfolio
  ⟨[], ["rebalance_portfolio"], false⟩,
  -- lines 60-63: def portfolio_performance
  ⟨[], ["portfolio_performance"], false⟩,
  -- lines 65-66: def minimize_risk
  ⟨[], ["minimize_risk"], false⟩,
  -- lines 68-75: def efficient_frontier
  ⟨[], ["efficient_frontier"], false⟩,
  -- line 78: import yfinance as yf
  ⟨[], ["yf"], false⟩,
  -- lines 80-85: def fetch_market_data
  ⟨[], ["fetch_market_data"], false⟩,
  -- line 88: tickers = ['AAPL', 'MSFT', 'GOOGL']
  ⟨[], ["tickers"], false⟩,
  -- line 89: start_date = '2020-01-01'
  ⟨[], ["start_date"], false⟩,
  -- line 90: end_date = '2023-01-01'
  ⟨[], ["end_date"], false⟩,
  -- line 92: price_df = pd.DataFrame(price_data)
  ⟨["pd", "price_data"], ["price_df"], false⟩,
  -- line 93: returns = price_df.pct_change().dropna()
  ⟨["price_df"], ["returns"], false⟩,
  -- line 96: mean_returns = returns.mean()
  ⟨["returns"], ["mean_returns"], false⟩,
  -- line 97: cov_matrix = returns.cov()
  ⟨["returns"], ["cov_matrix"], false⟩,
  -- line 100: optimal_weights = efficient_frontier(mean_returns, cov_matrix, target_return=0.02)
  ⟨["efficient_frontier", "mean_returns", "cov_matrix"], ["optimal_weights"], false⟩,
  -- line 101: print of optimal weights
  ⟨["optimal_weights"], [], true⟩,
  -- line 103: price_data = dict of fetch_market_data per ticker
  ⟨["fetch_market_data", "tickers", "start_date", "end_date"], ["price_data"], false⟩,
  -- lines 106-111: def adjust_portfolio_with_costs
  ⟨[], ["adjust_portfolio_with_costs"], false⟩,
  -- lines 114-121: def plot_efficient_frontier
  ⟨[], ["plot_efficient_frontier"], false⟩,
  -- line 124: optimal_weights = efficient_frontier(...)
  ⟨["efficient_frontier", "mean_returns", "cov_matrix"], ["optimal_weights"], false⟩,
  -- line 125: print of optimal weights
  ⟨["optimal_weights"], [], true⟩,
  -- line 128: adjusted_weights = adjust_portfolio_with_costs(optimal_weights, market_signal=0.01)
  ⟨["adjust_portfolio_with_costs", "optimal_weights"], ["adjusted_weights"], false⟩,
  -- line 129: print of adjusted weights
  ⟨["adjusted_weights"], [], true⟩,
  -- line 132: portfolio_returns = np.dot(returns, optimal_weights)
  ⟨["np", "returns", "optimal_weights"], ["portfolio_returns"], false⟩,
  -- line 133: var, cvar = calculate_var_cvar(portfolio_returns)
  ⟨["calculate_var_cvar", "portfolio_returns"], ["var", "cvar"], false⟩,
  -- line 134: print of VaR and CVaR
  ⟨["var", "cvar"], [], true⟩
]

/-- C3: running the top-level script stops with a `NameError` on
`price_data` — read at line 92 to build `price_df` but assigned only at
line 103 — having produced zero output statements, so the documented
pipeline (optimal weights, VaR/CVaR printing, plotting) is never
reached. -/
theorem script_stops_with_name_error :
    runScript dposScript [] 0 = Except.error ("price_data", 0) := rfl

/-- Evaluation rule for `calculate_var_cvar` on an in-range index, phrased
with the sorted list explicit. -/
lemma calculate_var_cvar_eval (returns : List ℚ) (c : ℚ) (i : ℕ)
    (hi : (i : ℤ) = ⌊(1 - c) * (returns.length : ℚ)⌋)
    (hlt : i < returns.length) :
    calculate_var_cvar returns c =
      some ((returns.insertionSort (· ≤ ·)).getD i 0,
            npMean ((returns.insertionSort (· ≤ ·)).take i)) := by
  have hlen : (returns.insertionSort (· ≤ ·)).length = returns.length :=
    List.length_insertionSort _ _
  have hi' : i < (returns.insertionSort (· ≤ ·)).length := by simpa [hlen] using hlt
  unfold calculate_var_cvar
  simp only [← hi, Int.toNat_natCast]
  rw [dif_pos ⟨Int.ofNat_nonneg i, hi'⟩]
  rw [List.getD_eq_getElem _ _ hi']
  rfl


/-- In a list sorted ascending, every element of the prefix of length `k`
is at most the element at index `k`. -/
lemma sorted_take_le (s : List ℚ) (hs : s.Sorted (· ≤ ·)) (k : ℕ)
    (hk : k < s.length) : ∀ x ∈ s.take k, x ≤ s[k] := by
  intro x hx
  have hdroplen : 0 < (s.drop k).length := by
    simpa [List.length_drop] using Nat.sub_pos_of_lt hk
  have hmemdrop : s[k] ∈ s.drop k := by
    have h0 : (s.drop k)[0] ∈ s.drop k := List.getElem_mem hdroplen
    have he : (s.drop k)[0] = s[k + 0] := List.getElem_drop s
    simpa using he ▸ h0
  exact hs.rel_of_mem_take_of_mem_drop hx hmemdrop

/-- The mean of the length-`k` prefix of an ascending list is at most the
element at index `k` (for `1 ≤ k < length`). -/
lemma sorted_take_mean_le (s : List ℚ) (hs : s.Sorted (· ≤ ·)) (k : ℕ)
    (hk : k < s.length) (h1 : 1 ≤ k) :
    (s.take k).sum / ((s.take k).length : ℚ) ≤ s[k] := by
  have hlen : (s.take k).length = k := by
    simp [List.length_take, Nat.min_eq_left (Nat.le_of_lt hk)]
  have hsum : (s.take k).sum ≤ (s.take k).length • s[k] :=
    List.sum_le_card_nsmul _ _ (sorted_take_le s hs k hk)
  rw [hlen] at hsum
  have hkpos : (0 : ℚ) < (k : ℚ) := by exact_mod_cast h1
  rw [hlen, div_le_iff₀ hkpos]
  calc (s.take k).sum ≤ k • s[k] := hsum
    _ = (k : ℚ) * s[k] := nsmul_eq_mul k _
    _ = s[k] * (k : ℚ) := mul_comm _ _

/-- C1 (amended): whenever `calculate_var_cvar` returns a VaR together with a
defined (non-NaN) CVaR, the CVaR — the mean of the sorted returns strictly
below VaR's rank — is less than or equal to the VaR. -/
theorem cvar_le_var (returns : List ℚ) (c var cvar : ℚ)
    (h : calculate_var_cvar returns c = some (var, some cvar)) : cvar ≤ var := by
  unfold calculate_var_cvar at h
  by_cases hcond : 0 ≤ ⌊(1 - c) * (returns.length : ℚ)⌋ ∧
      (⌊(1 - c) * (returns.length : ℚ)⌋).toNat <
        (returns.insertionSort (· ≤ ·)).length
  · rw [dif_pos hcond] at h
    set s := returns.insertionSort (· ≤ ·) with hs_def
    set k := (⌊(1 - c) * (returns.length : ℚ)⌋).toNat with hk_def
    have hpair := Option.some_injective _ h
    have hvar : s.get ⟨k, hcond.2⟩ = var := congrArg Prod.fst hpair
    have hcvar : npMean (s.take k) = some cvar := congrArg Prod.snd hpair
    unfold npMean at hcvar
    by_cases hemp : (s.take k).isEmpty
    · rw [if_pos hemp] at hcvar; exact absurd hcvar (by simp)
    · rw [if_neg hemp] at hcvar
      have hcvar' : (s.take k).sum / ((s.take k).length : ℚ) = cvar :=
        Option.some_injective _ hcvar
      have hk1 : 1 ≤ k := by
        by_contra hk0
        have : k = 0 := by omega
        simp [this] at hemp
      have hsorted : s.Sorted (· ≤ ·) := List.sorted_insertionSort _ _
      have := sorted_take_mean_le s hsorted k hcond.2 hk1
      rw [hcvar'] at this
      have hget : s[k] = var := hvar
      rw [hget] at this
      exact this
  · rw [dif_neg hcond] at h
    exact absurd h (by simp)

/-- C1 (counterexample to the claim as stated): at the default confidence
level 0.95 on 20 returns, the returned VaR is `-1` and the returned CVaR is
`-2`, and VaR ≤ CVaR fails. -/
theorem var_cvar_counterexample :
    calculate_var_cvar
        [-2, -1, 0, 1, 2, 3, 4, 5, 6, 7, 8, 9, 10, 11, 12, 13, 14, 15, 16, 17]
        (95/100) = some (-1, some (-2)) ∧ ¬ ((-1 : ℚ) ≤ (-2 : ℚ)) := by
  constructor
  · rw [calculate_var_cvar_eval _ _ 1 (by norm_num) (by norm_num)]
    norm_num [npMean, List.insertionSort, List.orderedInsert]
  · norm_num

/-- C5: for an in-range index `i = ⌊(1 - c) · N⌋`, `calculate_var_cvar`
returns the element at rank `i` of an ascending rearrangement of the input,
together with the arithmetic mean of the first `i` sorted elements. -/
theorem calculate_var_cvar_rank (returns : List ℚ) (c : ℚ) (i : ℕ)
    (hi : (i : ℤ) = ⌊(1 - c) * (returns.length : ℚ)⌋)
    (hlt : i < returns.length) :
    ∃ s : List ℚ, s.Perm returns ∧ s.Sorted (· ≤ ·) ∧
      calculate_var_cvar returns c = some (s.getD i 0, npMean (s.take i)) ∧
      (1 ≤ i → npMean (s.take i) = some ((s.take i).sum / (i : ℚ))) := by
  refine ⟨returns.insertionSort (· ≤ ·), List.perm_insertionSort _ _,
    List.sorted_insertionSort _ _, calculate_var_cvar_eval returns c i hi hlt, ?_⟩
  intro h1
  have hlen : ((returns.insertionSort (· ≤ ·)).take i).length = i := by
    simp [List.length_take, List.length_insertionSort,
      Nat.min_eq_left (Nat.le_of_lt hlt)]
  have hne : ¬ ((returns.insertionSort (· ≤ ·)).take i).isEmpty := by
    rw [List.isEmpty_iff_length_eq_zero, hlen]
    omega
  rw [npMean, if_neg hne, hlen]

/-- C9: when the computed index `⌊(1 - c) · N⌋` is 0 on a non-empty returns
list, `calculate_var_cvar` still returns a VaR — the smallest return — but
the CVaR is the mean of an empty slice, i.e. NaN (`none`); no guard
prevents this. -/
theorem calculate_var_cvar_index_zero (returns : List ℚ) (c : ℚ)
    (hne : returns ≠ [])
    (h0 : ⌊(1 - c) * (returns.length : ℚ)⌋ = 0) :
    ∃ var, calculate_var_cvar returns c = some (var, none) ∧
      var ∈ returns ∧ ∀ x ∈ returns, var ≤ x := by
  have hlen0 : 0 < returns.length := List.length_pos.mpr hne
  have heval := calculate_var_cvar_eval returns c 0 (by exact_mod_cast h0.symm) hlen0
  have hslen : 0 < (returns.insertionSort (· ≤ ·)).length := by
    simpa [List.length_insertionSort] using hlen0
  refine ⟨(returns.insertionSort (· ≤ ·)).getD 0 0, ?_, ?_, ?_⟩
  · rw [heval]
    simp [npMean]
  · rw [List.getD_eq_getElem _ _ hslen]
    exact (List.mem_insertionSort _).mp (List.getElem_mem hslen)
  · intro x hx
    rw [List.getD_eq_getElem _ _ hslen]
    have hxs : x ∈ returns.insertionSort (· ≤ ·) := (List.mem_insertionSort _).mpr hx
    obtain ⟨j, hj, rfl⟩ := List.getElem_of_mem hxs
    have hsorted : (returns.insertionSort (· ≤ ·)).Sorted (· ≤ ·) :=
      List.sorted_insertionSort _ _
    exact @List.Sorted.rel_get_of_le ℚ (· ≤ ·) _ _ hsorted ⟨0, hslen⟩ ⟨j, hj⟩
      (by simp [Fin.mk_le_mk])

theorem cvar_le_var_witness : (-3/2 : ℚ) ≤ 0 :=
  cvar_le_var [-2, -1, 0, 1] (1/2) 0 (-3/2) (by
    rw [calculate_var_cvar_eval [-2, -1, 0, 1] (1/2) 2 (by norm_num) (by norm_num)]
    norm_num [npMean, List.insertionSort, List.orderedInsert])

theorem calculate_var_cvar_rank_witness :
    ∃ s : List ℚ, s.Perm [3, 1, 2, 0, 4] ∧ s.Sorted (· ≤ ·) ∧
      calculate_var_cvar [3, 1, 2, 0, 4] (2/5) =
        some (s.getD 3 0, npMean (s.take 3)) ∧
      (1 ≤ 3 → npMean (s.take 3) = some ((s.take 3).sum / (3 : ℚ))) :=
  calculate_var_cvar_rank [3, 1, 2, 0, 4] (2/5) 3 (by norm_num) (by norm_num)

theorem calculate_var_cvar_index_zero_witness :
    ∃ var, calculate_var_cvar [3, 1, 2] 1 = some (var, none) ∧
      var ∈ [(3 : ℚ), 1, 2] ∧ ∀ x ∈ [(3 : ℚ), 1, 2], var ≤ x :=
  calculate_var_cvar_index_zero [3, 1, 2] 1 (by simp) (by norm_num)

/-- `np.any(np.abs(w - t) > tol)` holds exactly when some common index has
absolute deviation exceeding the tolerance. -/
lemma any_deviation_iff (w t : List ℚ) (tol : ℚ) :
    (List.zipWith (fun a b => |a - b|) w t).any (fun d => decide (tol < d)) = true ↔
      ∃ i, i < w.length ∧ i < t.length ∧ tol < |w.getD i 0 - t.getD i 0| := by
  induction w generalizing t with
  | nil => simp
  | cons a w ih =>
    cases t with
    | nil => simp
    | cons b t =>
      simp only [List.zipWith_cons_cons, List.any_cons, Bool.or_eq_true,
        decide_eq_true_eq, ih]
      constructor
      · rintro (h | ⟨i, h1, h2, h3⟩)
        · exact ⟨0, by simp, by simp, by simpa using h⟩
        · exact ⟨i + 1, by simpa using h1, by simpa using h2, by simpa using h3⟩
      · rintro ⟨i, h1, h2, h3⟩
        cases i with
        | zero => exact Or.inl (by simpa using h3)
        | succ i =>
          exact Or.inr ⟨i, by simpa using h1, by simpa using h2, by simpa using h3⟩

/-- C2: on equal-length weight vectors, `rebalance_portfolio` returns the
input weights exactly when every per-asset absolute deviation is at most the
tolerance, returns the target weights exactly when some deviation exceeds
it, and in all cases returns one of the two input vectors unchanged — never
a per-asset mix. -/
theorem rebalance_all_or_nothing (weights target_weights : List ℚ) (tol : ℚ)
    (hlen : weights.length = target_weights.length) :
    ((∀ i, i < weights.length →
        |weights.getD i 0 - target_weights.getD i 0| ≤ tol) →
      rebalance_portfolio weights target_weights tol = weights) ∧
    ((∃ i, i < weights.length ∧
        tol < |weights.getD i 0 - target_weights.getD i 0|) →
      rebalance_portfolio weights target_weights tol = target_weights) ∧
    (rebalance_portfolio weights target_weights tol = weights ∨
      rebalance_portfolio weights target_weights tol = target_weights) := by
  unfold rebalance_portfolio
  by_cases hany : (List.zipWith (fun a b => |a - b|) weights target_weights).any
      (fun d => decide (tol < d)) = true
  · rw [if_pos hany]
    obtain ⟨i, h1, _, h3⟩ := (any_deviation_iff _ _ _).mp hany
    exact ⟨fun hall => absurd h3 (not_lt.mpr (hall i h1)), fun _ => rfl, Or.inr rfl⟩
  · rw [if_neg hany]
    refine ⟨fun _ => rfl, ?_, Or.inl rfl⟩
    rintro ⟨i, h1, h3⟩
    exact absurd ((any_deviation_iff _ _ _).mpr ⟨i, h1, hlen ▸ h1, h3⟩) hany

theorem rebalance_all_or_nothing_witness :
    rebalance_portfolio [1/2, 1/2] [3/5, 2/5] (1/20) = [3/5, 2/5] :=
  (rebalance_all_or_nothing [1/2, 1/2] [3/5, 2/5] (1/20) (by simp)).2.1
    ⟨0, by norm_num, by norm_num [List.getD, lt_abs]⟩

/-- C4: `adjust_portfolio_with_costs` multiplies every weight by
`(1 + market_signal) · (1 − transaction_cost)` with no renormalization, so
the output sum is the input sum scaled by that factor; in particular weights
summing to 1 are mapped to weights summing to `(1+s)(1−c)`, which differs
from 1 whenever `(1+s)(1−c) ≠ 1`. -/
theorem adjust_portfolio_with_costs_formula (weights : List ℚ) (s c : ℚ) :
    (∀ i, (adjust_portfolio_with_costs weights s c).getD i 0 =
        weights.getD i 0 * (1 + s) * (1 - c)) ∧
    (adjust_portfolio_with_costs weights s c).sum =
        weights.sum * ((1 + s) * (1 - c)) ∧
    (weights.sum = 1 → (1 + s) * (1 - c) ≠ 1 →
      (adjust_portfolio_with_costs weights s c).sum ≠ 1) := by
  have hmap : adjust_portfolio_with_costs weights s c =
      weights.map (fun w => w * (1 + s) * (1 - c)) := by
    unfold adjust_portfolio_with_costs
    rw [List.map_map]
    rfl
  have hsum_eq : ∀ l : List ℚ, (l.map (fun w => w * (1 + s) * (1 - c))).sum =
      l.sum * ((1 + s) * (1 - c)) := by
    intro l
    induction l with
    | nil => simp
    | cons a l ih =>
      simp only [List.map_cons, List.sum_cons, ih]
      ring
  refine ⟨?_, by rw [hmap, hsum_eq], ?_⟩
  · intro i
    rw [hmap]
    rcases lt_or_ge i weights.length with hi | hi
    · rw [List.getD_eq_getElem _ _ (by simpa using hi),
        List.getD_eq_getElem _ _ hi, List.getElem_map]
    · rw [List.getD_eq_default _ _ (by simpa using hi),
        List.getD_eq_default _ _ hi]
      ring
  · intro h1 hne
    rw [hmap, hsum_eq, h1, one_mul]
    exact hne

theorem adjust_portfolio_with_costs_witness :
    (adjust_portfolio_with_costs [1, 0] (1/100) (1/200)).sum ≠ 1 :=
  (adjust_portfolio_with_costs_formula [1, 0] (1/100) (1/200)).2.2
    (by norm_num) (by norm_num)

/-- C6 (counterexample to the claim as stated): with the default risk-free
rate 0.01, multiplying both the portfolio return and the standard deviation
by `k = 2` changes the Sharpe ratio (0.15 versus 0.10). -/
theorem sharpe_scale_counterexample :
    calculate_sharpe_ratio (2 * (2/100)) (2 * (1/10)) (1/100) ≠
      calculate_sharpe_ratio (2/100) (1/10) (1/100) := by
  unfold calculate_sharpe_ratio
  norm_num

/-- C6 (amended): the Sharpe ratio is unchanged when the portfolio return,
the standard deviation, and the risk-free rate are all multiplied by the
same nonzero constant (equivalently, it is scale-invariant exactly when the
risk-free rate is scaled along, e.g. when it is zero). -/
theorem sharpe_scale_invariant_scaled_rate (r σ rf k : ℚ)
    (hσ : σ ≠ 0) (hk : k ≠ 0) :
    calculate_sharpe_ratio (k * r) (k * σ) (k * rf) =
      calculate_sharpe_ratio r σ rf := by
  unfold calculate_sharpe_ratio
  rw [if_neg (mul_ne_zero hk hσ), if_neg hσ]
  congr 1
  field_simp
  ring

theorem sharpe_scale_invariant_scaled_rate_witness :
    calculate_sharpe_ratio (2 * (2/100)) (2 * (1/10)) (2 * (1/100)) =
      calculate_sharpe_ratio (2/100) (1/10) (1/100) :=
  sharpe_scale_invariant_scaled_rate (2/100) (1/10) (1/100) 2
    (by norm_num) (by norm_num)

/-- C8: `calculate_sharpe_ratio` returns
`(portfolio_return − risk_free_rate) / portfolio_stddev` for every nonzero
standard deviation, and fails with a division-by-zero error exactly when the
standard deviation is 0. -/
theorem sharpe_ratio_division_behavior (r σ rf : ℚ) :
    (σ ≠ 0 → calculate_sharpe_ratio r σ rf = Except.ok ((r - rf) / σ)) ∧
    (σ = 0 → calculate_sharpe_ratio r σ rf = Except.error ("ZeroDivisionError")) := by
  constructor
  · intro h
    unfold calculate_sharpe_ratio
    rw [if_neg h]
  · intro h
    unfold calculate_sharpe_ratio
    rw [if_pos h]

theorem sharpe_ratio_division_behavior_witness :
    calculate_sharpe_ratio 5 2 1 = Except.ok ((5 - 1) / 2) :=
  (sharpe_ratio_division_behavior 5 2 1).1 (by norm_num)

lemma optSum_replicate_zero (n : ℕ) :
    optSum (List.replicate n (some 0)) = some 0 := by
  induction n with
  | zero => rfl
  | succ n ih => simp [List.replicate_succ, optSum, ih]

lemma optSum_replicate_none (n : ℕ) (h : 1 ≤ n) :
    optSum (List.replicate n none) = none := by
  cases n with
  | zero => omega
  | succ n => rw [List.replicate_succ]; rfl

/-- C10 (counterexample to the claim as stated): at the negative discount
rate −1 on the cash-flow array `[-100]`, the computation does not proceed to
NaN propagation: `np.random.normal` raises an explicit `ValueError`
(negative scale `0.05 · (−100)`) before any discounting. -/
theorem calculate_dcf_negative_flow_counterexample :
    calculate_dcf [-100] (-1) (fun _ _ => 0) 1000 =
      Except.error ("ValueError") := by
  have hany : ([(-100 : ℚ)]).any (fun x => decide (0.05 * x < 0)) = true := by
    simp only [List.any_cons, List.any_nil, Bool.or_false, decide_eq_true_eq]
    norm_num
  simp only [calculate_dcf, hany, if_true]

/-- C10 (amended): `calculate_dcf` performs no validation of its own of
negative discount rates or empty cash-flow arrays.  On an empty cash-flow
array the unguarded formula simply runs (each simulated discounted sum is
the empty sum 0, so the mean is 0 for any positive simulation count), and on
the degenerate discount rate −1, for any non-empty cash-flow array accepted
by `np.random.normal` (no negative entry, so its scale `0.05 · cf` is
nonnegative), the division by `(1 + rate)^(t+1) = 0` makes every simulated
value non-finite, so the returned mean is NaN rather than an explicit
error.  (A negative cash-flow entry instead makes `np.random.normal` raise
`ValueError` before discounting.) -/
theorem calculate_dcf_unguarded (rate : ℚ) (z : ℕ → ℕ → ℚ) (ns : ℕ)
    (cf : List ℚ) (hns : 1 ≤ ns) (hcf : cf ≠ []) (hnn : ∀ x ∈ cf, 0 ≤ x) :
    calculate_dcf [] rate z ns = Except.ok (some 0) ∧
      calculate_dcf cf (-1) z ns = Except.ok none := by
  have hemp : ¬ (List.replicate ns (some (0 : ℚ))).isEmpty := by
    cases ns with
    | zero => omega
    | succ n => simp [List.replicate_succ]
  constructor
  · simp only [calculate_dcf]
    rw [if_neg (by simp)]
    simp only [List.length_nil, List.range_zero, List.map_nil]
    have hrep : (List.range ns).map (fun _ => optSum ([] : List (Option ℚ))) =
        List.replicate ns (some 0) := by
      simp [optSum, List.map_const', List.length_range]
    rw [hrep]
    unfold optMean
    rw [if_neg hemp, optSum_replicate_zero]
    simp
  · simp only [calculate_dcf]
    have hany : cf.any (fun x => decide (0.05 * x < 0)) = false := by
      rw [List.any_eq_false]
      intro x hx
      simp only [decide_eq_true_eq, not_lt]
      exact mul_nonneg (by norm_num) (hnn x hx)
    rw [hany, if_neg Bool.false_ne_true]
    obtain ⟨a, l, rfl⟩ : ∃ a l, cf = a :: l := by
      cases cf with
      | nil => exact absurd rfl hcf
      | cons a l => exact ⟨a, l, rfl⟩
    rw [List.length_cons, List.range_succ_eq_map]
    have hinner : ∀ i : ℕ,
        optSum ((0 :: (List.range l.length).map Nat.succ).map (fun t =>
          qdiv ((a :: l).getD t 0 + 0.05 * (a :: l).getD t 0 * z i t)
            ((1 + (-1 : ℚ)) ^ (t + 1)))) = none := by
      intro i
      rw [List.map_cons]
      have h0 : qdiv ((a :: l).getD 0 0 + 0.05 * (a :: l).getD 0 0 * z i 0)
          ((1 + (-1 : ℚ)) ^ (0 + 1)) = none := by
        norm_num [qdiv]
      rw [h0]
      rfl
    simp only [hinner, List.map_const', List.length_range]
    unfold optMean
    by_cases hns0 : (List.replicate ns (none : Option ℚ)).isEmpty
    · rw [if_pos hns0]
    · rw [if_neg hns0, optSum_replicate_none ns hns]
      rfl

theorem calculate_dcf_unguarded_witness :
    calculate_dcf [] (3/2) (fun _ _ => 0) 1000 = Except.ok (some 0) ∧
      calculate_dcf [100, 100, 100] (-1) (fun _ _ => 0) 1000 = Except.ok none :=
  calculate_dcf_unguarded (3/2) (fun _ _ => 0) 1000 [100, 100, 100]
    (by norm_num) (by simp)
    (by intro x hx; simp only [List.mem_cons, List.not_mem_nil, or_false] at hx;
        rcases hx with rfl | rfl | rfl <;> norm_num)
